import Mathlib

/-!
Verification development for the website_analytics repository.

The TypeScript sources are shallowly embedded as Lean definitions:

* text processing (markdown-table extraction, rating extraction,
  key sanitization) is modelled over `List Char`;
* stateful code (the in-memory key-value store) is modelled by explicit
  state passing on `String → Option String`;
* network calls and the generative-model responses are parameters of the
  embedded functions (an oracle per outbound call), so a whole call-site
  pipeline becomes a pure function of its environment;
* fallible JS code (thrown exceptions, promise rejections) is modelled
  with `Except` / `Option`.
-/

namespace WA

/-- Character list: the model of a JavaScript string. -/
abbrev Chars := List Char

/-- Whitespace test used by the model of `String.prototype.trim` and of
regex `\s`. -/
def isWS (c : Char) : Bool := c.isWhitespace

/-- Model of `str.split(sep)` for a one-character separator, with the
JavaScript semantics: `"".split(s) = [""]` and separators at the ends
produce empty pieces. -/
def splitOnChar (sep : Char) : Chars → List Chars
  | [] => [[]]
  | c :: cs =>
    let r := splitOnChar sep cs
    if c = sep then [] :: r
    else
      match r with
      | [] => [[c]]
      | h :: t => (c :: h) :: t

/-- Model of `str.trim()`: drop whitespace from both ends. -/
def trimChars (l : Chars) : Chars := (l.dropWhile isWS).rdropWhile isWS

/-- Decides whether `pat` is a prefix of the second list. -/
def isPre : Chars → Chars → Bool
  | [], _ => true
  | _ :: _, [] => false
  | a :: as, b :: bs => a = b && isPre as bs

/-- Model of `str.includes(pat)`: `pat` occurs somewhere in the list. -/
def containsPat (pat : Chars) : Chars → Bool
  | [] => isPre pat []
  | c :: cs => isPre pat (c :: cs) || containsPat pat cs

/-- Model of `str.startsWith(c)` for a one-character pattern. -/
def headIs (c : Char) : Chars → Bool
  | [] => false
  | a :: _ => a = c

/-- Model of `str.endsWith(c)` for a one-character pattern. -/
def lastIs (c : Char) : Chars → Bool
  | [] => false
  | [a] => a = c
  | _ :: b :: t => lastIs c (b :: t)

/-- Left-brace character, written via its code point. -/
def lbraceC : Char := Char.ofNat 123

/-- Right-brace character, written via its code point. -/
def rbraceC : Char := Char.ofNat 125

/-- Double-quote character, written via its code point. -/
def quoteC : Char := Char.ofNat 34

/-- Backtick character, written via its code point. -/
def btickC : Char := Char.ofNat 96

/-- Structured product row produced by `extractProductData`
(src/app/actions/extract-product-data-action.ts, lines 122-131):
`{name: columns[0], price: columns[1], imageUrl: columns[2],
rating: 0, reviews: 0, url: ""}`. -/
structure Product where
  name : Chars
  price : Chars
  imageUrl : Chars
  rating : Nat
  reviews : Nat
  url : Chars
deriving DecidableEq, Repr

/-- Row filter of `extractProductData` (lines 106-111): a trimmed line is
kept when it begins and ends with a pipe, contains no `---` and does not
contain the header label `Product Name`. -/
def rowKept (row : Chars) : Bool :=
  headIs '|' row && lastIs '|' row &&
    !(containsPat (("---").toList) row) &&
    !(containsPat (("Product Name").toList) row)

/-- Column split of `extractProductData` (lines 118-121): split the row on
pipes, trim each piece, and keep the non-empty pieces
(`filter(Boolean)` drops exactly the empty strings). -/
def rowColumns (row : Chars) : List Chars :=
  ((splitOnChar '|' row).map trimChars).filter (fun c => !c.isEmpty)

/-- Row-to-product map of `extractProductData` (lines 117-133): rows with
at least three columns become a product, the rest become `null` and are
dropped by the final `filter(Boolean)`. -/
def rowToProduct (row : Chars) : Option Product :=
  match rowColumns row with
  | a :: b :: c :: _ => some ⟨a, b, c, 0, 0, []⟩
  | _ => none

/-- Markdown-table extraction of `extractProductData` (lines 106-134):
split the response on newlines, trim each line, keep the lines passing
`rowKept`, and map the kept rows to products. -/
def structuredProducts (text : Chars) : List Product :=
  ((((splitOnChar '\n' text).map trimChars).filter rowKept).filterMap rowToProduct)

/-- Element of the loosely typed `any[]` arrays flowing through the
product pipeline: either an opaque raw scraped item or a structured
product produced by the table extraction. -/
inductive Item where
  | raw (tag : Nat)
  | prod (p : Product)
deriving DecidableEq, Repr

/-- Outcome of the one outbound Gemini call made by `extractProductData`.
`exc` covers a thrown `fetchWithRetry` / `safeJsonParse` error (caught by
the function's own `catch`), `notOk` a response with `ok = false`,
`badShape` a response without `candidates[0].content.parts[0]`, and
`text t` a successful response whose first part carries the text `t`. -/
inductive GeminiOut where
  | exc
  | notOk
  | badShape
  | text (t : Chars)

/-- Model of `extractProductData`
(src/app/actions/extract-product-data-action.ts, lines 5-151), as a pure
function of the API-key presence, the input array and the outcome of the
Gemini call.  Every failure branch returns `rawData` (lines 10, 84, 99,
141, 149); an empty input returns `[]` (line 16); a successful extraction
with at least one row returns the structured products (line 145). -/
def extractProductData (gemKeySet : Bool) (rawData : List Item)
    (out : GeminiOut) : List Item :=
  if !gemKeySet then rawData
  else if rawData.isEmpty then []
  else
    match out with
    | .exc => rawData
    | .notOk => rawData
    | .badShape => rawData
    | .text t =>
      let sp := (structuredProducts t).map Item.prod
      if sp.isEmpty then rawData else sp

/-- Rating pattern of the scraper page function
(src/app/actions/product-comparison-action.ts, line 327): one attempt of
the regex `([0-9]\.[0-9])|([0-9])` at a fixed position, first
alternative preferred, no sign and no clamping. -/
def ratingMatchAt : Chars → Option Chars
  | a :: b :: c :: _ =>
    if a.isDigit && b = '.' && c.isDigit then some [a, b, c]
    else if a.isDigit then some [a] else none
  | a :: _ => if a.isDigit then some [a] else none
  | [] => none

/-- Leftmost match of the rating regex: scan positions left to right. -/
def ratingFirstMatch : Chars → Option Chars
  | [] => none
  | c :: cs =>
    match ratingMatchAt (c :: cs) with
    | some m => some m
    | none => ratingFirstMatch cs

/-- Numeric value of one digit character, as an exact rational. -/
def digitVal (c : Char) : ℚ := ((c.toNat - 48 : Nat) : ℚ)

/-- Model of `parseFloat` on the two possible match shapes (`d.d` or
`d`); the regex guarantees the argument is one of these, so the result
is never `NaN`. -/
def parseRatingToken : Chars → ℚ
  | [a, _, b] => digitVal a + digitVal b / 10
  | [a] => digitVal a
  | _ => 0

/-- Rating extraction of the page function (lines 322-331): `rating`
starts at `0`; a falsy (empty) rating text leaves it `0`; otherwise the
first regex match, if any, is parsed and stored unmodified. -/
def ratingFromText (s : Chars) : ℚ :=
  if s.isEmpty then 0
  else
    match ratingFirstMatch s with
    | some m => parseRatingToken m
    | none => 0

/-- Client-side display normalization of a product rating
(src/app/product-comparison/results/[id]/client-results.tsx, lines 76
and 99): `typeof rating === "number" ? Math.min(5, Math.max(0, rating)) : 0`.
The `Option` argument models the `typeof` test; within this pipeline the
numeric values are exact rationals, never `NaN`. -/
def cleanRating : Option ℚ → ℚ
  | some x => min 5 (max 0 x)
  | none => 0

/-- HTTP response as seen by `fetchWithRetry`: the function never
inspects it, in particular not its `ok` flag. -/
structure HttpResp where
  ok : Bool
deriving DecidableEq, Repr

/-- Result of one `fetch` call: either a resolved response or a thrown
transport error. -/
inductive FetchRes where
  | ok (r : HttpResp)
  | err (e : String)
deriving DecidableEq, Repr

/-- Model of `fetchWithRetry`
(src/app/actions/product-comparison-action.ts, lines 761-777).  The
oracle `f` gives the result of the `n`-th `fetch` attempt (0-based).
The function returns the final result together with the list of backoff
delays waited, in order. -/
def fetchWithRetry (f : Nat → FetchRes) (i retries backoff : Nat) :
    FetchRes × List Nat :=
  match f i with
  | .ok r => (.ok r, [])
  | .err e =>
    match retries with
    | 0 => (.err e, [])
    | n + 1 =>
      let p := fetchWithRetry f (i + 1) n (backoff * 2)
      (p.1, backoff :: p.2)

/-- JavaScript value passed to `storage.set`: `typeof value === "string"`
distinguishes plain strings from records, which are stringified. -/
inductive JsValue (V : Type) where
  | jstr (s : String)
  | jrec (v : V)

/-- Model of `const stringValue = typeof value === "string" ? value :
JSON.stringify(value)` (src/lib/storage.ts, line 45), with the external
`JSON.stringify` supplied as a parameter. -/
def stringValueOf {V : Type} (stringify : V → String) : JsValue V → String
  | .jstr s => s
  | .jrec v => stringify v

/-- The in-memory `memoryStore` record (src/lib/storage.ts, line 5). -/
abbrev MemStore := String → Option String

/-- Store with no keys set. -/
def emptyStore : MemStore := fun _ => none

/-- Model of `storage.set` in the in-memory backend
(src/lib/storage.ts, lines 60-63): `memoryStore[key] = stringValue`. -/
def memSet {V : Type} (stringify : V → String) (store : MemStore)
    (key : String) (v : JsValue V) : MemStore :=
  fun k => if k = key then some (stringValueOf stringify v) else store k

/-- Model of `storage.del` in the in-memory backend
(src/lib/storage.ts, line 111): `delete memoryStore[key]`. -/
def memDel (store : MemStore) (key : String) : MemStore :=
  fun k => if k = key then none else store k

/-- Result of `storage.get`: `absent` models a `null` return, `value` a
successfully re-parsed record, `raw` the stored string returned as-is,
and `parseError` a `JSON.parse` exception escaping the in-memory
branch. -/
inductive GetResult (V : Type) where
  | absent
  | value (v : V)
  | raw (s : String)
  | parseError
deriving DecidableEq

/-- Model of `storage.get` in the in-memory backend
(src/lib/storage.ts, lines 84-92): a missing or empty entry is falsy and
yields `null`; an entry starting with `{` is `JSON.parse`d; any other
entry is returned as the raw string.  `parse` stands for the external
`JSON.parse`, `none` modelling a thrown parse error. -/
def memGet {V : Type} (parse : String → Option V) (store : MemStore)
    (key : String) : GetResult V :=
  match store key with
  | none => .absent
  | some s =>
    if s.toList.isEmpty then .absent
    else if headIs lbraceC s.toList then
      match parse s with
      | some v => .value v
      | none => .parseError
    else .raw s

/-- Loop body of `storage.keys` in the in-memory backend
(src/lib/storage.ts, lines 148-151): push the key when it starts with
the requested prefix, is not an internal `key_map:` entry, and is not
already collected. -/
def memKeysStep (pre : String) (acc : List String) (k : String) :
    List String :=
  if isPre pre.toList k.toList && !(isPre (("key_map:").toList) k.toList)
      && !(acc.contains k)
  then acc ++ [k] else acc

/-- Model of `storage.keys` in the in-memory backend
(src/lib/storage.ts, lines 147-152): iterate the store's keys in order,
starting from the empty collection. -/
def memKeys (pre : String) (ks : List String) : List String :=
  ks.foldl (memKeysStep pre) []

/-- One global single-character replacement with a fixed replacement
string, modelling `str.replace(/c/g, rep)`. -/
def replaceCharL (t : Char) (rep : Chars) (l : Chars) : Chars :=
  (l.map (fun c => if c = t then rep else [c])).flatten

/-- The seven sequential character replacements of `sanitizeKey`
(src/lib/storage.ts, lines 30-37), innermost applied first, in source
order `: / \ ? & = .`. -/
def sanitizeSteps (l : Chars) : Chars :=
  replaceCharL '.' (("_dot_").toList)
    (replaceCharL '=' (("_equals_").toList)
      (replaceCharL '&' (("_amp_").toList)
        (replaceCharL '?' (("_question_").toList)
          (replaceCharL '\\' (("_backslash_").toList)
            (replaceCharL '/' (("_slash_").toList)
              (replaceCharL ':' (("_colon_").toList) l))))))

/-- Textual run removed by `sanitizeKey` line 38, `https` variant. -/
def httpsRunPat : Chars := ("https_colon__slash__slash_").toList

/-- Textual run removed by `sanitizeKey` line 38, `http` variant. -/
def httpRunPat : Chars := ("http_colon__slash__slash_").toList

/-- Fuelled scanner for `.replace(/https?_colon__slash__slash_/g, "")`
(src/lib/storage.ts, line 38): scan left to right, removing each
occurrence (longer `https` alternative preferred, as the regex does) and
continuing after the removed text.  The fuel only bounds the recursion
depth; with fuel at least the input length it never runs out, since
every step consumes at least one character. -/
def stripHttpRunsGo : Nat → Chars → Chars
  | 0, l => l
  | _ + 1, [] => []
  | fuel + 1, c :: cs =>
    if isPre httpsRunPat (c :: cs) then
      stripHttpRunsGo fuel ((c :: cs).drop httpsRunPat.length)
    else if isPre httpRunPat (c :: cs) then
      stripHttpRunsGo fuel ((c :: cs).drop httpRunPat.length)
    else c :: stripHttpRunsGo fuel cs

/-- Model of `.replace(/https?_colon__slash__slash_/g, "")` -/
def stripHttpRuns (l : Chars) : Chars := stripHttpRunsGo l.length l

/-- Character class of `.replace(/[<>:"\\|?*]/g, "_")`
(src/lib/storage.ts, line 39). -/
def classChars : Chars := ['<', '>', ':', Char.ofNat 34, '\\', '|', '?', '*']

/-- Final catch-all replacement of `sanitizeKey` line 39. -/
def classReplace (l : Chars) : Chars :=
  l.map (fun c => if c ∈ classChars then '_' else c)

/-- Model of `sanitizeKey` (src/lib/storage.ts, lines 28-40). -/
def sanitizeKey (key : String) : String :=
  String.mk (classReplace (stripHttpRuns (sanitizeSteps key.toList)))

/-- File name used by `storage.set` (src/lib/storage.ts, line 51):
the sanitized key with a `.json` suffix, joined directly under the
storage directory. -/
def storageFileName (key : String) : String := sanitizeKey key ++ (".json")

/-- Detects two consecutive dots, the ingredient of a `..` path
segment. -/
def hasDDot : Chars → Bool
  | a :: b :: t => (a = '.' && b = '.') || hasDDot (b :: t)
  | _ => false

/-- Outcome of one status poll of the Apify run
(src/app/actions/product-comparison-action.ts, lines 575-583): an HTTP
error response (logged and skipped, line 579), a thrown
`fetchWithRetry` / `safeJsonParse` error, or a parsed status string. -/
inductive StatusResp where
  | httpErr
  | throwing (e : String)
  | status (s : String)

/-- Outcome of the dataset fetch after a `SUCCEEDED` status (lines
590-613): a non-ok response (thrown, line 595), a thrown parse error,
or the parsed dataset items.  The items are modelled as an already-flat
list, on which the `.flat()` of line 601 is the identity. -/
inductive DatasetResp where
  | notOk
  | parseThrow
  | items (l : List Item)

/-- Environment of one `scrapeWebsite` call (product-comparison variant,
lines 145-635): presence of the Apify token, outcome of the run-start
request and of its body parse, the status returned by each poll attempt
(indexed from 1), and the dataset fetch outcome. -/
structure ScrapeEnv where
  tokenPresent : Bool
  startThrow : Option String
  startOk : Bool
  startParseThrow : Bool
  statusAt : Nat → StatusResp
  dataset : DatasetResp

/-- Attempt budget of the product-comparison poll loop (line 567). -/
def maxAttempts : Nat := 30

/-- Error message thrown when the attempt budget is exhausted while the
run never reached a terminal status (line 627). -/
def timeoutMsg : String :=
  ("Cheerio Scraper task did not complete after ") ++ toString maxAttempts
    ++ (" attempts")

/-- Model of the poll loop of `scrapeWebsite` (lines 563-628), by the
number of remaining attempts; `k` is the current attempt number.  A
non-terminal status (anything other than `SUCCEEDED`, `FAILED`,
`TIMED-OUT`, `ABORTED`) and an HTTP error on the status check both
continue polling; exhausting the budget with no `taskResult` throws
`timeoutMsg`. -/
def pollLoop (env : ScrapeEnv) : Nat → Nat → Except String (List Item)
  | 0, _ => .error timeoutMsg
  | n + 1, k =>
    match env.statusAt k with
    | .httpErr => pollLoop env n (k + 1)
    | .throwing e => .error e
    | .status s =>
      if s = ("SUCCEEDED") then
        match env.dataset with
        | .notOk => .error (("Failed to fetch Cheerio Scraper results"))
        | .parseThrow => .error (("dataset body parse error"))
        | .items l => .ok l
      else if s = ("FAILED") || s = ("TIMED-OUT") || s = ("ABORTED") then
        .error (("Cheerio Scraper task failed with status: ") ++ s)
      else pollLoop env n (k + 1)

/-- The `try` block of `scrapeWebsite` (lines 146-630): missing token
and failed start request throw; otherwise the poll loop decides the
outcome. -/
def scrapeBody (env : ScrapeEnv) : Except String (List Item) :=
  if !env.tokenPresent then
    .error (("APIFY_API_TOKEN environment variable is not set"))
  else
    match env.startThrow with
    | some e => .error e
    | none =>
      if !env.startOk then .error (("Failed to start Cheerio Scraper"))
      else if env.startParseThrow then .error (("start body parse error"))
      else pollLoop env maxAttempts 1

/-- Model of `scrapeWebsite` (lines 145-635): the catch-all at lines
631-634 absorbs every thrown error and returns the empty array. -/
def scrapeWebsite (env : ScrapeEnv) : List Item :=
  match scrapeBody env with
  | .ok l => l
  | .error _ => []

/-- Product item as stored by `analyzeProducts` (lines 102-106): the
extracted item plus the generated `id` and `imageKey` fields. -/
structure Tagged where
  base : Item
  pid : String
  imageKey : String
deriving DecidableEq, Repr

/-- The id/imageKey tagging map of `analyzeProducts` (lines 102-106),
with `Date.now()` supplied as `now`. -/
def tagProducts (now : Nat) (l : List Item) : List Tagged :=
  l.enum.map (fun p =>
    ⟨p.2, ("product-") ++ toString p.1 ++ ("-") ++ toString now,
      ("img-") ++ toString p.1 ++ ("-") ++ toString now⟩)

/-- Shape of the analysis object built by `analyzeProductData`
(lines 736-745 and, in the catch branch, 748-757). -/
structure Analysis where
  priceMin : ℚ
  priceMax : ℚ
  priceAvg : ℚ
  topRated : List Tagged
  mostReviewed : List Tagged
  recommendations : List String
deriving DecidableEq, Repr

/-- The analysis object returned by the catch branch of
`analyzeProductData` (lines 748-757). -/
def zeroAnalysis : Analysis := ⟨0, 0, 0, [], [], []⟩

/-- Outcome of the `try` block of `analyzeProductData` (lines 638-745).
The block always produces an analysis object (line 736); its numeric
content is not under any claim, so a successful run is abstracted as the
environment-supplied object `a`, while `exc` stands for any error thrown
inside the block (missing Gemini key, SDK failure, `JSON.parse` throw at
line 734), all caught at line 746. -/
inductive AnalyzeOut where
  | exc
  | ok (a : Analysis)

/-- Model of `analyzeProductData` (lines 637-759): never throws, always
returns an analysis object. -/
def analyzeProductData : AnalyzeOut → Analysis
  | .exc => zeroAnalysis
  | .ok a => a

/-- The persisted `ProductComparisonResult` record (lines 9-27). -/
structure PCResult where
  id : String
  date : Nat
  website : String
  category : String
  status : String
  products : List Tagged
  analysis : Option Analysis
  error : Option String
deriving DecidableEq, Repr

/-- The placeholder record written by `runProductComparison` before the
background job starts (lines 43-54). -/
def initialResult (id website category : String) (now : Nat) : PCResult :=
  ⟨id, now, website, category, ("running"), [], none, none⟩

/-- The record written by the catch branch of `analyzeProducts`
(lines 130-141).  Within the embedded semantics every awaited callee of
the `try` block is total (each has its own catch-all), so this record is
never actually written; it is defined to document the branch. -/
def failedResult (id website category : String) (now2 : Nat)
    (msg : String) : PCResult :=
  ⟨id, now2, website, category, ("failed"), [], none, some msg⟩

/-- Environment of one `analyzeProducts` run: the scrape environment
plus the Gemini outcomes of the extraction and analysis calls. -/
structure AnalyzeEnv where
  scrape : ScrapeEnv
  gemKeySet : Bool
  gemOut : GeminiOut
  analysisOut : AnalyzeOut

/-- The structured-products computation of `analyzeProducts`
(lines 71-99): scrape, extract, and substitute the raw data when the
extraction yielded nothing but raw data exists (lines 91-94).
`extractProductData` never throws in the embedding (it has its own
catch-all), so the inner catch of lines 95-99 is not reachable. -/
def analyzeStructured (env : AnalyzeEnv) : List Item :=
  let rawData := scrapeWebsite env.scrape
  let sp := extractProductData env.gemKeySet rawData env.gemOut
  if sp.isEmpty && !rawData.isEmpty then rawData else sp

/-- The completed record written by `analyzeProducts` on its normal path
(lines 113-124): status `completed`, tagged products, non-null
analysis. -/
def analyzeFinal (env : AnalyzeEnv) (id website category : String)
    (now2 : Nat) : PCResult :=
  ⟨id, now2, website, category, ("completed"),
    tagProducts now2 (analyzeStructured env),
    some (analyzeProductData env.analysisOut), none⟩

/-- Sequence of records written to storage by `runProductComparison`
followed by its background `analyzeProducts` job (lines 29-143): nothing
when the website field is empty (the function throws before writing,
line 36), otherwise the running placeholder and then the completed
record.  Every awaited callee of the `analyzeProducts` `try` block is
total in the embedding, so the failed record of the catch branch never
enters the trace. -/
def pipelineWrites (env : AnalyzeEnv) (id website category : String)
    (now now2 : Nat) : List PCResult :=
  if website = "" then []
  else [initialResult id website category now,
        analyzeFinal env id website category now2]

/-- The three-backtick code fence. -/
def fence3 : Chars := [btickC, btickC, btickC]

/-- The `json`-tagged code fence opening. -/
def fenceJsonPat : Chars := fence3 ++ ("json").toList

/-- SWOT analysis record returned by `compareWebsites`
(src/app/actions/product-comparison-action.ts, appended
competitor-tracking module, lines 1290-1295). -/
structure SWOT where
  strengths : List Chars
  weaknesses : List Chars
  opportunities : List Chars
  threats : List Chars
deriving DecidableEq, Repr

/-- The `WebsiteData` record of the competitor-tracking module
(lines 797-807). -/
structure WebsiteData where
  url : Chars
  title : Chars
  description : Chars
  keywords : List Chars
  headings : List Chars
  content : Chars
  links : List Chars
  images : List Chars
  lastScraped : Nat

/-- Joining a keyword list with a comma and a space, modelling
`keywords.join(", ")`. -/
def joinCommaSpace : List Chars → Chars
  | [] => []
  | [x] => x
  | x :: y :: t => x ++ (", ").toList ++ joinCommaSpace (y :: t)

/-- Model of `generateFallbackSWOT` (lines 1335-1386): the
deterministic rule-based SWOT substitute, built from the main website's
metadata and the number of competitors. -/
def generateFallbackSWOT (m : WebsiteData) (comps : List WebsiteData) :
    SWOT :=
  let strengths :=
    (if 5 < m.title.length then
        [(("Clear website title: ").toList) ++ [quoteC] ++ m.title ++ [quoteC]]
      else [])
    ++ (if 10 < m.description.length then
        [("Descriptive meta description that explains the website purpose").toList]
      else [])
    ++ (if 0 < m.keywords.length then
        [(("Defined keywords that can help with SEO: ").toList)
          ++ joinCommaSpace m.keywords]
      else [])
  let weaknesses :=
    (if m.description.length < 10 then
        [("Missing or very short meta description").toList] else [])
    ++ (if m.keywords.length = 0 then
        [("No keywords defined for SEO").toList] else [])
    ++ (if m.content.length < 1000 then
        [("Limited content length which may affect SEO rankings").toList]
      else [])
  let opportunities :=
    [("Expand website content to improve search engine visibility").toList,
     ("Add more descriptive headings to improve content structure").toList,
     ("Optimize meta tags and descriptions for better SEO performance").toList]
  let threats :=
    (if 0 < comps.length then
        [(("Competition from ").toList) ++ (toString comps.length).toList
          ++ (" similar websites in the same space").toList]
      else [])
    ++ [("Rapidly changing SEO algorithms requiring constant optimization").toList,
        ("Potential for competitors to target the same keywords and audience").toList]
  ⟨strengths, weaknesses, opportunities, threats⟩

/-- Split at the first occurrence of `pat`: returns the characters
before the occurrence and the characters after it. -/
def splitAtPat (pat : Chars) : Chars → Option (Chars × Chars)
  | [] => if pat.isEmpty then some ([], []) else none
  | c :: cs =>
    if isPre pat (c :: cs) then some ([], (c :: cs).drop pat.length)
    else
      match splitAtPat pat cs with
      | some p => some (c :: p.1, p.2)
      | none => none

/-- Capture group of the code-fence regex
`/(three backticks)(?:json)?\s*([\s\S]*?)(three backticks)/` at line 1278:
find the first fence, optionally consume a `json` tag, greedily consume
whitespace, then capture lazily up to the next fence; no closing fence
means no match. -/
def fenceCapture (l : Chars) : Option Chars :=
  match splitAtPat fence3 l with
  | none => none
  | some p =>
    let rest := if isPre (("json").toList) p.2 then p.2.drop 4 else p.2
    let rest2 := rest.dropWhile isWS
    match splitAtPat fence3 rest2 with
    | none => none
    | some q => some q.1

/-- Index of the first occurrence of a character, modelling
`str.indexOf(c)` (with `none` for `-1`). -/
def firstIdxOf (c : Char) (l : Chars) : Option Nat :=
  l.findIdx? (fun x => x = c)

/-- Index of the last occurrence of a character, modelling
`str.lastIndexOf(c)` (with `none` for `-1`). -/
def lastIdxOf (c : Char) (l : Chars) : Option Nat :=
  match l.reverse.findIdx? (fun x => x = c) with
  | some k => some (l.length - 1 - k)
  | none => none

/-- Model of `str.substring(i, j + 1)`. -/
def sliceIncl (l : Chars) (i j : Nat) : Chars := (l.take (j + 1)).drop i

/-- The parse cascade of `compareWebsites` applied to its chosen parse
target (lines 1285-1327): try `JSON.parse` on the target; on failure
take the substring between the target's first `{` and last `}` (only
when both exist and the end is after the start) and try again; on all
failures return the rule-based fallback.  `parse` stands for the
external `JSON.parse` followed by the `Array.isArray` field coercions,
which are the identity on the typed result. -/
def parseStage (parse : Chars → Option SWOT) (m : WebsiteData)
    (comps : List WebsiteData) (jsonStr : Chars) : SWOT :=
  match parse jsonStr with
  | some s => s
  | none =>
    match firstIdxOf lbraceC jsonStr, lastIdxOf rbraceC jsonStr with
    | some i, some j =>
      if i < j then
        match parse (sliceIncl jsonStr i j) with
        | some s => s
        | none => generateFallbackSWOT m comps
      else generateFallbackSWOT m comps
    | some _, none => generateFallbackSWOT m comps
    | none, _ => generateFallbackSWOT m comps

/-- Model of the JSON extraction of `compareWebsites`
(lines 1270-1331): when the response contains a code fence and the fence
regex captures a non-empty group, the trimmed capture replaces the whole
text as the parse target (lines 1274-1283); the parse cascade then runs
on that target.  The surrounding catch branches make the function total:
no extraction error reaches the caller. -/
def extractSWOT (parse : Chars → Option SWOT) (m : WebsiteData)
    (comps : List WebsiteData) (text : Chars) : SWOT :=
  let jsonStr :=
    if containsPat fenceJsonPat text || containsPat fence3 text then
      match fenceCapture text with
      | some cap => if !cap.isEmpty then trimChars cap else text
      | none => text
    else text
  parseStage parse m comps jsonStr

/-- Modelled from the spec (section 4.5, JSON variant), for comparison
with `extractSWOT`: attempt a direct parse of the whole text; on
failure, search for a fenced code block and parse its contents; on
failure, take the substring between the first brace and the last brace
of the text and attempt to parse that; on all failures, fall back to the
rule-based substitute result. -/
def claimedExtract (parse : Chars → Option SWOT) (m : WebsiteData)
    (comps : List WebsiteData) (text : Chars) : SWOT :=
  match parse text with
  | some s => s
  | none =>
    match
      (match fenceCapture text with
       | some cap => parse (trimChars cap)
       | none => none) with
    | some s => s
    | none =>
      match firstIdxOf lbraceC text, lastIdxOf rbraceC text with
      | some i, some j =>
        if i < j then
          match parse (sliceIncl text i j) with
          | some s => s
          | none => generateFallbackSWOT m comps
        else generateFallbackSWOT m comps
      | some _, none => generateFallbackSWOT m comps
      | none, _ => generateFallbackSWOT m comps

/-- String-literal body: characters up to an unescaped closing quote
(no escape sequences supported). -/
def parseStrBody : Chars → Option (Chars × Chars)
  | [] => none
  | c :: cs =>
    if c = quoteC then some ([], cs)
    else
      match parseStrBody cs with
      | some p => some (c :: p.1, p.2)
      | none => none

/-- String literal: an opening quote followed by a body. -/
def parseStrLit : Chars → Option (Chars × Chars)
  | c :: cs => if c = quoteC then parseStrBody cs else none
  | [] => none

/-- Comma-separated string literals up to a closing bracket. -/
def parseItems (fuel : Nat) (l : Chars) : Option (List Chars × Chars) :=
  match parseStrLit l with
  | none => none
  | some p =>
    match p.2 with
    | ',' :: rest2 =>
      match fuel with
      | 0 => none
      | f + 1 =>
        match parseItems f rest2 with
        | some q => some (p.1 :: q.1, q.2)
        | none => none
    | ']' :: rest2 => some ([p.1], rest2)
    | _ => none

/-- Array of string literals. -/
def parseArr : Chars → Option (List Chars × Chars)
  | '[' :: ']' :: rest => some ([], rest)
  | '[' :: rest => parseItems rest.length rest
  | _ => none

/-- Consume an exact token. -/
def expectPat (pat : Chars) (l : Chars) : Option Chars :=
  if isPre pat l then some (l.drop pat.length) else none

/-- Quoted key followed by a colon. -/
def keyToken (name : Chars) : Chars := [quoteC] ++ name ++ [quoteC, ':']

/-- Key token followed by its string array. -/
def parseKeyArr (name : Chars) (l : Chars) :
    Option (List Chars × Chars) :=
  match expectPat (keyToken name) l with
  | none => none
  | some r => parseArr r

/-- Executable stand-in for the external `JSON.parse` on the exact SWOT
object shape, restricted to inputs with no whitespace between tokens and
no escape sequences inside string literals; it agrees with `JSON.parse`
on every input it is applied to in the theorems below, and fails (as
`JSON.parse` throws) on non-JSON inputs such as a bare letter. -/
def parseSWOTLite (l : Chars) : Option SWOT := do
  let r0 ← expectPat [lbraceC] l
  let p1 ← parseKeyArr (("strengths").toList) r0
  let r1 ← expectPat [','] p1.2
  let p2 ← parseKeyArr (("weaknesses").toList) r1
  let r2 ← expectPat [','] p2.2
  let p3 ← parseKeyArr (("opportunities").toList) r2
  let r3 ← expectPat [','] p3.2
  let p4 ← parseKeyArr (("threats").toList) r3
  let r4 ← expectPat [rbraceC] p4.2
  if r4.isEmpty then some ⟨p1.1, p2.1, p3.1, p4.1⟩ else none

/-- Concrete model response for the markdown-table scenario: a header
row, a separator row, and two data rows of three columns each. -/
def c1Example : Chars :=
  ("| Product Name | Price | Image URL |\n| --- | --- | --- |\n|  Widget A  | $19.99 | http://a.example/img1 |\n| Widget B | $5 | http://b.example/img2 |").toList

/-- Expected first entry of the markdown-table scenario. -/
def c1WidgetA : Product :=
  ⟨("Widget A").toList, ("$19.99").toList,
    ("http://a.example/img1").toList, 0, 0, []⟩

/-- Expected second entry of the markdown-table scenario. -/
def c1WidgetB : Product :=
  ⟨("Widget B").toList, ("$5").toList,
    ("http://b.example/img2").toList, 0, 0, []⟩

/-- Scrape environment whose remote run reports `RUNNING` on every
status poll: the attempt budget is exhausted. -/
def runningEnv : ScrapeEnv :=
  ⟨true, none, true, false, fun _ => .status ("RUNNING"), .items []⟩

/-- Full pipeline environment for the poll-timeout scenario. -/
def c2Env : AnalyzeEnv := ⟨runningEnv, true, .exc, .ok zeroAnalysis⟩

/-- Concrete model response that is a valid JSON SWOT object as a whole
and also contains a code fence inside one of its string values. -/
def c6Text : Chars :=
  ("\x7b\"strengths\":[\"```a```\"],\"weaknesses\":[],\"opportunities\":[],\"threats\":[]\x7d").toList

/-- Main-website record with empty metadata, used to fix the fallback
SWOT in the counterexample. -/
def emptySite : WebsiteData := ⟨[], [], [], [], [], [], [], [], 0⟩

/-- Trivial stringifier used to instantiate the storage round-trip: the
unit record serializes to a two-character object literal. -/
def unitStringify : Unit → String := fun _ => ("\x7b\x7d")

/-- Trivial parser matching `unitStringify`. -/
def unitParse : String → Option Unit :=
  fun s => if s = ("\x7b\x7d") then some () else none

section TextLemmas

/-- Pieces of a character split never contain the separator. -/
theorem not_mem_of_mem_splitOnChar {sep : Char} {l : Chars} :
    ∀ piece ∈ splitOnChar sep l, sep ∉ piece := by
  induction l with
  | nil =>
    intro piece h
    simp only [splitOnChar, List.mem_singleton] at h
    simp [h]
  | cons c cs ih =>
    intro piece h
    simp only [splitOnChar] at h
    by_cases hc : c = sep
    · rw [if_pos hc] at h
      rcases List.mem_cons.mp h with h1 | h2
      · simp [h1]
      · exact ih piece h2
    · rw [if_neg hc] at h
      rcases hr : splitOnChar sep cs with _ | ⟨hd, tl⟩
      · rw [hr] at h
        simp only [List.mem_singleton] at h
        subst h
        intro hmem
        rcases List.mem_singleton.mp hmem with rfl
        exact hc rfl
      · rw [hr] at h
        rcases List.mem_cons.mp h with h1 | h2
        · subst h1
          intro hmem
          rcases List.mem_cons.mp hmem with rfl | hmem2
          · exact hc rfl
          · have hhd : hd ∈ splitOnChar sep cs := by
              rw [hr]; exact List.mem_cons_self hd tl
            exact ih hd hhd hmem2
        · have hp2 : piece ∈ splitOnChar sep cs := by
            rw [hr]; exact List.mem_cons.mpr (Or.inr h2)
          exact ih piece hp2

/-- Characters of a trimmed string are characters of the original. -/
theorem mem_of_mem_trimChars {c : Char} {l : Chars}
    (h : c ∈ trimChars l) : c ∈ l := by
  have h1 : c ∈ l.dropWhile isWS :=
    (List.rdropWhile_prefix isWS (l.dropWhile isWS)).sublist.mem h
  exact (l.dropWhile_suffix isWS).sublist.mem h1

/-- Trimming is idempotent. -/
theorem trimChars_trimChars (l : Chars) :
    trimChars (trimChars l) = trimChars l := by
  unfold trimChars
  set D := l.dropWhile isWS with hD
  have hDdw : D.dropWhile isWS = D := List.dropWhile_idempotent isWS l
  have hpre : D.rdropWhile isWS <+: D := List.rdropWhile_prefix isWS D
  have hstep : (D.rdropWhile isWS).dropWhile isWS = D.rdropWhile isWS := by
    rcases hT : D.rdropWhile isWS with _ | ⟨a, as⟩
    · simp
    · obtain ⟨t, ht⟩ := hT ▸ hpre
      have hDa : D = a :: (as ++ t) := by rw [← ht]; simp
      have hna : ¬ isWS a = true := by
        intro ha
        rw [hDa, List.dropWhile_cons_of_pos ha] at hDdw
        have hlen := congrArg List.length hDdw
        have hle := ((as ++ t).dropWhile_suffix isWS).sublist.length_le
        simp only [List.length_cons] at hlen
        omega
      rw [List.dropWhile_cons_of_neg hna]
  rw [hstep, List.rdropWhile_idempotent]

end TextLemmas

/-- Columns produced by `rowColumns` are trimmed and pipe-free. -/
theorem mem_rowColumns_trimmed {row y : Chars} (h : y ∈ rowColumns row) :
    trimChars y = y ∧ '|' ∉ y := by
  unfold rowColumns at h
  have h1 := List.mem_of_mem_filter h
  rcases List.mem_map.mp h1 with ⟨x, hx, rfl⟩
  exact ⟨trimChars_trimChars x,
    fun hc => not_mem_of_mem_splitOnChar x hx (mem_of_mem_trimChars hc)⟩

/-- C1: markdown-table extraction.  A response with a header row, a
separator row and two three-column data rows yields exactly the two
expected entries through `extractProductData`; and in general every
entry produced by the table extraction has trimmed, pipe-free column
values and zero rating and reviews. -/
theorem c1_markdown_table_extraction :
    extractProductData true [Item.raw 0] (GeminiOut.text c1Example)
      = [Item.prod c1WidgetA, Item.prod c1WidgetB]
    ∧ ∀ text p, p ∈ structuredProducts text →
        trimChars p.name = p.name ∧ trimChars p.price = p.price
        ∧ trimChars p.imageUrl = p.imageUrl
        ∧ '|' ∉ p.name ∧ '|' ∉ p.price ∧ '|' ∉ p.imageUrl
        ∧ p.rating = 0 ∧ p.reviews = 0 := by
  constructor
  · decide
  · intro text p hp
    unfold structuredProducts at hp
    rcases List.mem_filterMap.mp hp with ⟨row, _, hrp⟩
    unfold rowToProduct at hrp
    rcases hcols : rowColumns row with _ | ⟨a, _ | ⟨b, _ | ⟨c, rest⟩⟩⟩ <;>
      rw [hcols] at hrp <;> simp at hrp
    obtain rfl := hrp.symm
    have ha : a ∈ rowColumns row := by rw [hcols]; simp
    have hb : b ∈ rowColumns row := by rw [hcols]; simp
    have hc : c ∈ rowColumns row := by rw [hcols]; simp
    obtain ⟨ha1, ha2⟩ := mem_rowColumns_trimmed ha
    obtain ⟨hb1, hb2⟩ := mem_rowColumns_trimmed hb
    obtain ⟨hc1, hc2⟩ := mem_rowColumns_trimmed hc
    exact ⟨ha1, hb1, hc1, ha2, hb2, hc2, rfl, rfl⟩

/-- Witness for C1: the general part applied to the first entry of the
concrete scenario. -/
theorem c1_markdown_table_extraction_witness :
    trimChars c1WidgetA.name = c1WidgetA.name ∧ '|' ∉ c1WidgetA.name
    ∧ c1WidgetA.rating = 0 := by
  have h := c1_markdown_table_extraction.2 c1Example c1WidgetA (by decide)
  exact ⟨h.1, h.2.2.2.1, h.2.2.2.2.2.2.1⟩

/-- Case analysis of `extractProductData`: the result is the raw data,
or the empty list when the input was empty, or a non-empty structured
extraction. -/
theorem extractProductData_cases (gk : Bool) (rawData : List Item)
    (out : GeminiOut) :
    extractProductData gk rawData out = rawData
    ∨ (rawData = [] ∧ extractProductData gk rawData out = [])
    ∨ (∃ t, out = GeminiOut.text t
        ∧ (structuredProducts t).map Item.prod ≠ []
        ∧ extractProductData gk rawData out
            = (structuredProducts t).map Item.prod) := by
  cases gk with
  | false => left; simp [extractProductData]
  | true =>
    cases rawData with
    | nil => right; left; exact ⟨rfl, by cases out <;> simp [extractProductData]⟩
    | cons x xs =>
      cases out with
      | exc => left; simp [extractProductData]
      | notOk => left; simp [extractProductData]
      | badShape => left; simp [extractProductData]
      | text t =>
        by_cases hsp : (structuredProducts t).map Item.prod = []
        · left; simp [extractProductData, hsp]
        · right; right
          exact ⟨t, rfl, hsp, by simp [extractProductData, hsp]⟩

/-- C5: the always-return-something fallback of `extractProductData`.
A non-empty input never produces an empty result; an empty result only
arises from an empty input; every failure branch (missing API key,
transport error, non-ok response, malformed response shape, table with
no parseable rows) returns the input itself. -/
theorem c5_raw_data_fallback (gk : Bool) (rawData : List Item)
    (out : GeminiOut) :
    (rawData ≠ [] → extractProductData gk rawData out ≠ [])
    ∧ (extractProductData gk rawData out = [] → rawData = [])
    ∧ extractProductData gk [] out = []
    ∧ extractProductData false rawData out = rawData
    ∧ extractProductData true rawData GeminiOut.exc = rawData
    ∧ extractProductData true rawData GeminiOut.notOk = rawData
    ∧ extractProductData true rawData GeminiOut.badShape = rawData
    ∧ (∀ t, structuredProducts t = [] →
        extractProductData true rawData (GeminiOut.text t) = rawData) := by
  have hmain : extractProductData gk rawData out = [] → rawData = [] := by
    intro h
    rcases extractProductData_cases gk rawData out with h1 | ⟨h1, _⟩ | ⟨t, _, h2, h3⟩
    · rw [← h1]; exact h
    · exact h1
    · exact absurd (h3 ▸ h) h2
  refine ⟨fun hne h => hne (hmain h), hmain, ?_, ?_, ?_, ?_, ?_, ?_⟩
  · cases out <;> cases gk <;> simp [extractProductData]
  · simp [extractProductData]
  · cases rawData <;> simp [extractProductData]
  · cases rawData <;> simp [extractProductData]
  · cases rawData <;> simp [extractProductData]
  · intro t ht
    cases rawData <;> simp [extractProductData, ht]

/-- Witness for C5: a singleton raw input survives a transport error. -/
theorem c5_raw_data_fallback_witness :
    extractProductData true [Item.raw 0] GeminiOut.exc ≠ [] :=
  (c5_raw_data_fallback true [Item.raw 0] GeminiOut.exc).1 (by decide)

/-- A text with no digit character never matches the rating regex. -/
theorem ratingFirstMatch_eq_none {s : Chars}
    (h : ∀ c ∈ s, c.isDigit = false) : ratingFirstMatch s = none := by
  induction s with
  | nil => rfl
  | cons c cs ih =>
    have hc : c.isDigit = false := h c (List.mem_cons_self c cs)
    have hmatch : ratingMatchAt (c :: cs) = none := by
      cases cs with
      | nil => simp [ratingMatchAt, hc]
      | cons b t =>
        cases t with
        | nil => simp [ratingMatchAt, hc]
        | cons d u => simp [ratingMatchAt, hc]
    rw [ratingFirstMatch, hmatch]
    exact ih (fun x hx => h x (List.mem_cons_of_mem c hx))

/-- Parsed rating tokens are non-negative rationals. -/
theorem parseRatingToken_nonneg (m : Chars) : 0 ≤ parseRatingToken m := by
  unfold parseRatingToken digitVal
  split <;> positivity

/-- The stored rating is always a non-negative rational, never `NaN` or
`null`. -/
theorem ratingFromText_nonneg (s : Chars) : 0 ≤ ratingFromText s := by
  unfold ratingFromText
  split
  · exact le_refl 0
  · split
    · exact parseRatingToken_nonneg _
    · exact le_refl 0

/-- Numeric value of the digit character `7`. -/
theorem digitVal_7 : digitVal '7' = 7 := by
  unfold digitVal
  rw [show ('7'.toNat - 48 : Nat) = 7 from by decide]
  norm_num

/-- Numeric value of the digit character `2`. -/
theorem digitVal_2 : digitVal '2' = 2 := by
  unfold digitVal
  rw [show ('2'.toNat - 48 : Nat) = 2 from by decide]
  norm_num

/-- Numeric value of the digit character `1`. -/
theorem digitVal_1 : digitVal '1' = 1 := by
  unfold digitVal
  rw [show ('1'.toNat - 48 : Nat) = 1 from by decide]
  norm_num

/-- Evaluation of the stored rating for the text `7.2`. -/
theorem ratingFromText_72 : ratingFromText (("7.2").toList) = 36 / 5 := by
  have h1 : ratingFirstMatch (("7.2").toList) = some ['7', '.', '2'] := by
    decide
  unfold ratingFromText
  rw [if_neg (by decide), h1]
  show parseRatingToken ['7', '.', '2'] = 36 / 5
  rw [show parseRatingToken ['7', '.', '2']
      = digitVal '7' + digitVal '2' / 10 from rfl, digitVal_7, digitVal_2]
  norm_num

/-- Evaluation of the stored rating for the text `-1`. -/
theorem ratingFromText_neg1 : ratingFromText (("-1").toList) = 1 := by
  have h1 : ratingFirstMatch (("-1").toList) = some ['1'] := by decide
  unfold ratingFromText
  rw [if_neg (by decide), h1]
  show parseRatingToken ['1'] = 1
  rw [show parseRatingToken ['1'] = digitVal '1' from rfl, digitVal_1]

/-- C3 counterexample: the rating normalization of the scraper page
function stores the first matched number unmodified, so an extracted
rating text of `7.2` is stored as 7.2 and not clamped to 5, and `-1` is
stored as 1 (the sign is not part of the pattern) and not clamped
to 0. -/
theorem c3_clamping_counterexample :
    ratingFromText (("7.2").toList) = 36 / 5
    ∧ ratingFromText (("7.2").toList) ≠ 5
    ∧ ratingFromText (("-1").toList) = 1
    ∧ ratingFromText (("-1").toList) ≠ 0 := by
  refine ⟨ratingFromText_72, ?_, ratingFromText_neg1, ?_⟩
  · rw [ratingFromText_72]; norm_num
  · rw [ratingFromText_neg1]; norm_num

/-- C3 amended: the scrape-time rating extraction applies no clamping —
`7.2` is stored as 7.2 and `-1` as 1; an item with no recognizable
rating (no digit in the text) stores exactly 0, and the stored value is
always a non-negative rational, never `null` or `NaN`.  Clamping to
[0, 5] happens only in the client-side display normalization
`cleanProductData`, where 7.2 becomes 5, -1 becomes 0 and a missing
rating becomes 0. -/
theorem c3_rating_unclamped_amended :
    ratingFromText (("7.2").toList) = 36 / 5
    ∧ ratingFromText (("-1").toList) = 1
    ∧ (∀ s : Chars, (∀ c ∈ s, c.isDigit = false) → ratingFromText s = 0)
    ∧ (∀ s : Chars, 0 ≤ ratingFromText s)
    ∧ cleanRating (some (36 / 5)) = 5
    ∧ cleanRating (some (-1)) = 0
    ∧ cleanRating none = 0 := by
  refine ⟨ratingFromText_72, ratingFromText_neg1, ?_, ratingFromText_nonneg,
    ?_, ?_, rfl⟩
  · intro s h
    unfold ratingFromText
    rw [ratingFirstMatch_eq_none h]
    split <;> rfl
  · show min 5 (max 0 (36 / 5 : ℚ)) = 5
    rw [max_eq_right (by norm_num), min_eq_left (by norm_num)]
  · show min 5 (max 0 (-1 : ℚ)) = 0
    rw [max_eq_left (by norm_num), min_eq_right (by norm_num)]

/-- Witness for the amended C3: a prose text with no digits stores
rating 0. -/
theorem c3_rating_unclamped_amended_witness :
    ratingFromText (("no rating here").toList) = 0 :=
  c3_rating_unclamped_amended.2.2.1 (("no rating here").toList) (by decide)

/-- C4: in-memory storage round-trip.  For a stringifier and parser
satisfying the JSON round-trip law on the record `v` (records serialize
to a string starting with a left brace), a `get` after a `set` of the
same key returns `v`; a never-set key and a deleted key read as
absent. -/
theorem c4_storage_roundtrip {V : Type} (stringify : V → String)
    (parse : String → Option V) (store : MemStore) (key : String) (v : V)
    (hrt : parse (stringify v) = some v)
    (hlb : headIs lbraceC (stringify v).toList = true) :
    memGet parse (memSet stringify store key (JsValue.jrec v)) key
      = GetResult.value v
    ∧ memGet parse emptyStore key = GetResult.absent
    ∧ memGet parse (memDel (memSet stringify store key (JsValue.jrec v)) key)
        key = GetResult.absent := by
  have hne : (stringify v).data ≠ [] := by
    intro hd
    have hlb2 : headIs lbraceC (stringify v).data = true := hlb
    rw [hd] at hlb2
    exact absurd hlb2 (by simp [headIs])
  have hlb2 : headIs lbraceC (stringify v).data = true := hlb
  refine ⟨?_, rfl, ?_⟩
  · simp [memGet, memSet, stringValueOf, hne, hlb2, hrt]
  · simp [memGet, memDel]

/-- Witness for C4: the round-trip at a concrete key with the unit
codec. -/
theorem c4_storage_roundtrip_witness :
    memGet unitParse (memSet unitStringify emptyStore ("k1")
      (JsValue.jrec ())) ("k1") = GetResult.value () :=
  (c4_storage_roundtrip unitStringify unitParse emptyStore ("k1") ()
    (by decide) (by decide)).1

/-- Bridge between the boolean `List.contains` and membership. -/
theorem strContains_iff {l : List String} {a : String} :
    l.contains a = true ↔ a ∈ l := List.elem_iff

/-- Membership characterization of the `storage.keys` fold, generalized
over the accumulator. -/
theorem memKeys_go_mem (pre : String) :
    ∀ (ks acc : List String) (k : String),
      k ∈ ks.foldl (memKeysStep pre) acc ↔
        k ∈ acc ∨ (k ∈ ks ∧ isPre pre.toList k.toList = true
          ∧ isPre (("key_map:").toList) k.toList = false) := by
  intro ks
  induction ks with
  | nil => intro acc k; simp
  | cons x xs ih =>
    intro acc k
    rw [List.foldl_cons, ih]
    unfold memKeysStep
    by_cases hcond :
        (isPre pre.toList x.toList && !(isPre (("key_map:").toList) x.toList)
          && !(acc.contains x)) = true
    · rw [if_pos hcond]
      simp only [Bool.and_eq_true, Bool.not_eq_true'] at hcond
      simp only [List.mem_append, List.mem_cons, List.not_mem_nil, or_false]
      constructor
      · rintro ((h | rfl) | ⟨hk, hP⟩)
        · exact Or.inl h
        · exact Or.inr ⟨Or.inl rfl, hcond.1.1, hcond.1.2⟩
        · exact Or.inr ⟨Or.inr hk, hP⟩
      · rintro (h | ⟨rfl | hk, hP1, hP2⟩)
        · exact Or.inl (Or.inl h)
        · exact Or.inl (Or.inr rfl)
        · exact Or.inr ⟨hk, hP1, hP2⟩
    · rw [if_neg hcond]
      simp only [List.mem_cons]
      constructor
      · rintro (h | ⟨hk, hP⟩)
        · exact Or.inl h
        · exact Or.inr ⟨Or.inr hk, hP⟩
      · rintro (h | ⟨rfl | hk, hP1, hP2⟩)
        · exact Or.inl h
        · left
          by_contra hmem
          have hc : acc.contains k = false := by
            rcases hcc : acc.contains k with _ | _
            · rfl
            · exact absurd (strContains_iff.mp hcc) hmem
          refine hcond ?_
          rw [Bool.and_eq_true, Bool.and_eq_true]
          exact ⟨⟨hP1, by rw [hP2]; rfl⟩, by rw [hc]; rfl⟩
        · exact Or.inr ⟨hk, hP1, hP2⟩

/-- The `storage.keys` fold never introduces a duplicate. -/
theorem memKeys_go_nodup (pre : String) :
    ∀ (ks acc : List String), acc.Nodup →
      (ks.foldl (memKeysStep pre) acc).Nodup := by
  intro ks
  induction ks with
  | nil => intro acc h; exact h
  | cons x xs ih =>
    intro acc hacc
    rw [List.foldl_cons]
    apply ih
    unfold memKeysStep
    by_cases hcond :
        (isPre pre.toList x.toList && !(isPre (("key_map:").toList) x.toList)
          && !(acc.contains x)) = true
    · rw [if_pos hcond]
      simp only [Bool.and_eq_true, Bool.not_eq_true'] at hcond
      have hx : x ∉ acc := fun hmem => by
        rw [strContains_iff.mpr hmem] at hcond
        exact absurd hcond.2 (by simp)
      simp [List.nodup_append, hacc, hx]
    · rw [if_neg hcond]; exact hacc

/-- C10: prefix listing over the in-memory backend.  `storage.keys`
returns exactly the stored keys that start with the prefix and are not
internal `key_map:` bookkeeping entries, without duplicates. -/
theorem c10_keys_listing (pre : String) (ks : List String) :
    (∀ k, k ∈ memKeys pre ks ↔
      k ∈ ks ∧ isPre pre.toList k.toList = true
        ∧ isPre (("key_map:").toList) k.toList = false)
    ∧ (memKeys pre ks).Nodup := by
  constructor
  · intro k
    unfold memKeys
    rw [memKeys_go_mem]
    simp
  · exact memKeys_go_nodup pre ks [] List.nodup_nil

/-- Witness for C10: a user key is listed, a bookkeeping key is not. -/
theorem c10_keys_listing_witness :
    ("pc:a") ∈ memKeys ("pc:") [("pc:a"), ("key_map:pc:a")]
    ∧ ("key_map:pc:a") ∉ memKeys ("") [("pc:a"), ("key_map:pc:a")] := by
  constructor
  · exact ((c10_keys_listing ("pc:") [("pc:a"), ("key_map:pc:a")]).1
      ("pc:a")).mpr ⟨by decide, by decide, by decide⟩
  · intro hmem
    have h := ((c10_keys_listing ("") [("pc:a"), ("key_map:pc:a")]).1
      ("key_map:pc:a")).mp hmem
    exact absurd h.2.2 (by decide)

/-- When every status poll reports `RUNNING`, the poll loop exhausts
its budget and throws the timeout message. -/
theorem pollLoop_all_running (env : ScrapeEnv)
    (hrun : ∀ k, env.statusAt k = StatusResp.status (("RUNNING"))) :
    ∀ n k, pollLoop env n k = Except.error timeoutMsg := by
  intro n
  induction n with
  | zero => intro k; rfl
  | succ m ih =>
    intro k
    rw [pollLoop, hrun k]
    show (if (("RUNNING") : String) = ("SUCCEEDED") then _
      else if (("RUNNING") : String) = ("FAILED")
          || (("RUNNING") : String) = ("TIMED-OUT")
          || (("RUNNING") : String) = ("ABORTED") then _
      else pollLoop env m (k + 1)) = Except.error timeoutMsg
    rw [if_neg (by decide), if_neg (by decide)]
    exact ih (k + 1)

/-- The extraction step applied to an empty scrape result is empty. -/
theorem extractProductData_nil (gk : Bool) (out : GeminiOut) :
    extractProductData gk [] out = [] := by
  cases gk with
  | false => simp [extractProductData]
  | true => cases out <;> simp [extractProductData]

/-- C2 counterexample: with a remote run that reports `RUNNING` on
every poll of the attempt budget, the poll loop does throw the timeout
error, but `scrapeWebsite` absorbs it and returns the empty array, so
the record persisted for the job has status `completed` — not `failed`
as the claim requires. -/
theorem c2_poll_timeout_counterexample :
    scrapeBody runningEnv = Except.error timeoutMsg
    ∧ timeoutMsg
        = ("Cheerio Scraper task did not complete after 30 attempts")
    ∧ scrapeWebsite runningEnv = []
    ∧ (analyzeFinal c2Env ("id0") ("example.com") ("electronics") 5).status
        = ("completed")
    ∧ ((analyzeFinal c2Env ("id0") ("example.com") ("electronics") 5).status
        = ("failed") → False) := by
  exact ⟨rfl, rfl, rfl, rfl, by decide⟩

/-- C2 amended: if the remote run's status remains `RUNNING` for the
entire attempt budget, the poll loop raises an error whose message
contains "did not complete after" and the attempt count, but the
catch-all of `scrapeWebsite` absorbs it and returns the empty array;
the pipeline then persists a record with status `completed` and empty
products for that job id, never one with status `failed`. -/
theorem c2_poll_timeout_amended (env : AnalyzeEnv) (id web cat : String)
    (n1 n2 : Nat)
    (htok : env.scrape.tokenPresent = true)
    (hst : env.scrape.startThrow = none)
    (hok : env.scrape.startOk = true)
    (hpt : env.scrape.startParseThrow = false)
    (hrun : ∀ k, env.scrape.statusAt k = StatusResp.status (("RUNNING"))) :
    scrapeBody env.scrape = Except.error timeoutMsg
    ∧ containsPat (("did not complete after").toList) timeoutMsg.toList
        = true
    ∧ containsPat ((toString maxAttempts).toList) timeoutMsg.toList = true
    ∧ scrapeWebsite env.scrape = []
    ∧ (analyzeFinal env id web cat n2).status = ("completed")
    ∧ (analyzeFinal env id web cat n2).products = []
    ∧ (analyzeFinal env id web cat n2).status ≠ ("failed")
    ∧ (web ≠ "" → pipelineWrites env id web cat n1 n2 =
        [initialResult id web cat n1, analyzeFinal env id web cat n2]) := by
  have hbody : scrapeBody env.scrape = Except.error timeoutMsg := by
    unfold scrapeBody
    rw [htok, hst]
    show (if !true then _ else if !env.scrape.startOk then _
      else if env.scrape.startParseThrow then _
      else pollLoop env.scrape maxAttempts 1) = Except.error timeoutMsg
    rw [hok, hpt]
    show (if !true then _ else if !true then _ else if false then _
      else pollLoop env.scrape maxAttempts 1) = Except.error timeoutMsg
    simpa using pollLoop_all_running env.scrape hrun maxAttempts 1
  have hscrape : scrapeWebsite env.scrape = [] := by
    unfold scrapeWebsite
    rw [hbody]
  have hstructured : analyzeStructured env = [] := by
    simp [analyzeStructured, hscrape, extractProductData_nil]
  refine ⟨hbody, by decide, by decide, hscrape, rfl, ?_,
    (show (("completed") : String) ≠ ("failed") from by decide), ?_⟩
  · show tagProducts n2 (analyzeStructured env) = []
    rw [hstructured]
    rfl
  · intro hweb
    unfold pipelineWrites
    rw [if_neg hweb]

/-- Witness for the amended C2, at the concrete all-`RUNNING`
environment. -/
theorem c2_poll_timeout_amended_witness :
    scrapeBody runningEnv = Except.error timeoutMsg
    ∧ (analyzeFinal c2Env ("w") ("example.com") ("c") 3).status
        = ("completed") := by
  have h := c2_poll_timeout_amended c2Env ("w") ("example.com") ("c") 2 3
    rfl rfl rfl rfl (fun _ => rfl)
  exact ⟨h.1, h.2.2.2.2.1⟩

/-- C7: every record written to storage by `runProductComparison` or
`analyzeProducts` satisfies the status invariant: `running` records are
empty placeholders with null analysis, `completed` records carry a
non-null analysis, and `failed` records carry a non-empty error
string. -/
theorem c7_status_invariant (env : AnalyzeEnv) (id web cat : String)
    (n1 n2 : Nat) :
    ∀ r ∈ pipelineWrites env id web cat n1 n2,
      (r.status = ("running") → r.products = [] ∧ r.analysis = none)
      ∧ (r.status = ("completed") → r.analysis ≠ none)
      ∧ (r.status = ("failed") → ∃ msg, r.error = some msg ∧ msg ≠ "") := by
  intro r hr
  unfold pipelineWrites at hr
  by_cases hweb : web = ""
  · rw [if_pos hweb] at hr
    exact absurd hr (List.not_mem_nil r)
  · rw [if_neg hweb] at hr
    rcases List.mem_cons.mp hr with rfl | hr2
    · exact ⟨fun _ => ⟨rfl, rfl⟩,
        fun h => absurd h
          (show ¬(("running") : String) = ("completed") from by decide),
        fun h => absurd h
          (show ¬(("running") : String) = ("failed") from by decide)⟩
    · rcases List.mem_cons.mp hr2 with rfl | hr3
      · refine ⟨fun h => absurd h
            (show ¬(("completed") : String) = ("running") from by decide),
          fun _ => ?_,
          fun h => absurd h
            (show ¬(("completed") : String) = ("failed") from by decide)⟩
        simp [analyzeFinal]
      · exact absurd hr3 (List.not_mem_nil r)

/-- Witness for C7: the placeholder record of a concrete pipeline run
satisfies the `running` leg of the invariant. -/
theorem c7_status_invariant_witness :
    (initialResult ("id0") ("example.com") ("c") 0).products = []
    ∧ (initialResult ("id0") ("example.com") ("c") 0).analysis = none :=
  (c7_status_invariant c2Env ("id0") ("example.com") ("c") 0 1
    (initialResult ("id0") ("example.com") ("c") 0)
    (by simp [pipelineWrites])).1 rfl

/-- The number of waits of `fetchWithRetry` is at most `retries`, so at
most `retries + 1` fetch attempts happen. -/
theorem fetchWithRetry_waits_le (f : Nat → FetchRes) :
    ∀ (retries : Nat) (i backoff : Nat),
      (fetchWithRetry f i retries backoff).2.length ≤ retries := by
  intro retries
  induction retries with
  | zero =>
    intro i backoff
    unfold fetchWithRetry
    cases f i <;> simp
  | succ n ih =>
    intro i backoff
    unfold fetchWithRetry
    cases f i with
    | ok r => simp
    | err e =>
      simp only [List.length_cons]
      exact Nat.succ_le_succ (ih (i + 1) (backoff * 2))

/-- First resolving attempt wins: if the first `j` attempts throw and
attempt `j` resolves within the budget, `fetchWithRetry` returns that
response — whatever its HTTP status — after exactly `j` waits. -/
theorem fetchWithRetry_first_ok (f : Nat → FetchRes) :
    ∀ (j retries i backoff : Nat) (r : HttpResp), j ≤ retries →
      (∀ k, k < j → ∃ e, f (i + k) = FetchRes.err e) →
      f (i + j) = FetchRes.ok r →
      (fetchWithRetry f i retries backoff).1 = FetchRes.ok r
      ∧ (fetchWithRetry f i retries backoff).2.length = j := by
  intro j
  induction j with
  | zero =>
    intro retries i backoff r _ _ hok
    rw [Nat.add_zero] at hok
    unfold fetchWithRetry
    rw [hok]
    exact ⟨rfl, rfl⟩
  | succ m ih =>
    intro retries i backoff r hle hfail hok
    obtain ⟨e, he⟩ := hfail 0 (Nat.succ_pos m)
    rw [Nat.add_zero] at he
    rcases retries with _ | n
    · exact absurd hle (by omega)
    · unfold fetchWithRetry
      rw [he]
      have hfail2 : ∀ k, k < m → ∃ e2, f (i + 1 + k) = FetchRes.err e2 := by
        intro k hk
        have := hfail (k + 1) (by omega)
        rwa [show i + (k + 1) = i + 1 + k from by omega] at this
      have hok2 : f (i + 1 + m) = FetchRes.ok r := by
        rwa [show i + (m + 1) = i + 1 + m from by omega] at hok
      have h := ih n (i + 1) (backoff * 2) r (by omega) hfail2 hok2
      exact ⟨h.1, by simp [h.2]⟩

/-- All-failure case: if every attempt within the budget throws, the
final attempt's error is rethrown after exactly `retries` waits. -/
theorem fetchWithRetry_all_err (f : Nat → FetchRes) :
    ∀ (retries i backoff : Nat),
      (∀ k, k ≤ retries → ∃ e, f (i + k) = FetchRes.err e) →
      (∃ e, f (i + retries) = FetchRes.err e
        ∧ (fetchWithRetry f i retries backoff).1 = FetchRes.err e)
      ∧ (fetchWithRetry f i retries backoff).2.length = retries := by
  intro retries
  induction retries with
  | zero =>
    intro i backoff hfail
    obtain ⟨e, he⟩ := hfail 0 (Nat.le_refl 0)
    rw [Nat.add_zero] at he
    unfold fetchWithRetry
    rw [he]
    exact ⟨⟨e, by rw [Nat.add_zero]; exact he, rfl⟩, rfl⟩
  | succ n ih =>
    intro i backoff hfail
    obtain ⟨e, he⟩ := hfail 0 (Nat.zero_le _)
    rw [Nat.add_zero] at he
    unfold fetchWithRetry
    rw [he]
    have hfail2 : ∀ k, k ≤ n → ∃ e2, f (i + 1 + k) = FetchRes.err e2 := by
      intro k hk
      have := hfail (k + 1) (by omega)
      rwa [show i + (k + 1) = i + 1 + k from by omega] at this
    have h := ih (i + 1) (backoff * 2) hfail2
    obtain ⟨⟨e2, he2, hres⟩, hlen⟩ := h
    refine ⟨⟨e2, ?_, hres⟩, by simp [hlen]⟩
    rwa [show i + (n + 1) = i + 1 + n from by omega]

/-- The waits of `fetchWithRetry` double each time: the wait list is
`backoff * 2 ^ k` for `k` ranging over the number of waits. -/
theorem fetchWithRetry_waits_geom (f : Nat → FetchRes) :
    ∀ (retries i backoff : Nat),
      (fetchWithRetry f i retries backoff).2
        = (List.range (fetchWithRetry f i retries backoff).2.length).map
            (fun k => backoff * 2 ^ k) := by
  intro retries
  induction retries with
  | zero =>
    intro i backoff
    unfold fetchWithRetry
    cases f i <;> simp
  | succ n ih =>
    intro i backoff
    unfold fetchWithRetry
    cases f i with
    | ok r => simp
    | err e =>
      simp only [List.length_cons, List.range_succ_eq_map, List.map_cons,
        List.map_map]
      rw [show backoff * 2 ^ 0 = backoff from by ring]
      congr 1
      rw [ih (i + 1) (backoff * 2)]
      simp only [List.length_map, List.length_range]
      apply List.map_congr_left
      intro k _
      simp only [Function.comp]
      rw [pow_succ]
      ring

/-- C8: transport retry semantics of `fetchWithRetry`.  At most
`retries` waits (hence `retries + 1` attempts) happen; the first
attempt whose fetch resolves is returned regardless of its HTTP status;
every wait doubles the previous one starting from `backoff`; and when
every attempt throws, the last error is rethrown. -/
theorem c8_fetch_retry_semantics (f : Nat → FetchRes)
    (retries backoff : Nat) :
    (fetchWithRetry f 0 retries backoff).2.length ≤ retries
    ∧ (∀ j r, j ≤ retries → (∀ k, k < j → ∃ e, f k = FetchRes.err e) →
        f j = FetchRes.ok r →
        (fetchWithRetry f 0 retries backoff).1 = FetchRes.ok r
        ∧ (fetchWithRetry f 0 retries backoff).2.length = j)
    ∧ ((∀ k, k ≤ retries → ∃ e, f k = FetchRes.err e) →
        ∃ e, f retries = FetchRes.err e
          ∧ (fetchWithRetry f 0 retries backoff).1 = FetchRes.err e)
    ∧ (fetchWithRetry f 0 retries backoff).2
        = (List.range (fetchWithRetry f 0 retries backoff).2.length).map
            (fun k => backoff * 2 ^ k) := by
  refine ⟨fetchWithRetry_waits_le f retries 0 backoff, ?_, ?_,
    fetchWithRetry_waits_geom f retries 0 backoff⟩
  · intro j r hle hfail hok
    exact fetchWithRetry_first_ok f j retries 0 backoff r hle
      (by simpa using hfail) (by simpa using hok)
  · intro hfail
    obtain ⟨⟨e, he, hres⟩, _⟩ :=
      fetchWithRetry_all_err f retries 0 backoff (by simpa using hfail)
    exact ⟨e, by simpa using he, hres⟩

/-- Witness for C8: with two failures then a success, the default
budget returns the first resolved response after two waits. -/
theorem c8_fetch_retry_semantics_witness :
    (fetchWithRetry
      (fun n => if n < 2 then FetchRes.err ("boom") else FetchRes.ok ⟨false⟩)
      0 3 1000).1 = FetchRes.ok ⟨false⟩ :=
  ((c8_fetch_retry_semantics
      (fun n => if n < 2 then FetchRes.err ("boom") else FetchRes.ok ⟨false⟩)
      3 1000).2.1 2 ⟨false⟩ (by omega)
    (fun k hk => ⟨("boom"), by simp [hk]⟩) (by simp)).1

/-- Characters of a single-character replacement come from the
replacement string or are untouched original characters different from
the target. -/
theorem mem_replaceCharL {t : Char} {rep l : Chars} {c : Char}
    (h : c ∈ replaceCharL t rep l) : c ∈ rep ∨ (c ∈ l ∧ c ≠ t) := by
  unfold replaceCharL at h
  rcases List.mem_flatten.mp h with ⟨piece, hpiece, hc⟩
  rcases List.mem_map.mp hpiece with ⟨a, ha, rfl⟩
  by_cases hat : a = t
  · rw [if_pos hat] at hc
    exact Or.inl hc
  · rw [if_neg hat] at hc
    rcases List.mem_singleton.mp hc with rfl
    exact Or.inr ⟨ha, hat⟩

/-- The run stripper only deletes characters. -/
theorem mem_stripHttpRunsGo {c : Char} :
    ∀ {fuel : Nat} {l : Chars}, c ∈ stripHttpRunsGo fuel l → c ∈ l := by
  intro fuel
  induction fuel with
  | zero => intro l h; exact h
  | succ n ih =>
    intro l h
    cases l with
    | nil => exact h
    | cons a as =>
      rw [stripHttpRunsGo] at h
      by_cases h1 : isPre httpsRunPat (a :: as) = true
      · rw [if_pos h1] at h
        exact List.mem_of_mem_drop (ih h)
      · rw [if_neg h1] at h
        by_cases h2 : isPre httpRunPat (a :: as) = true
        · rw [if_pos h2] at h
          exact List.mem_of_mem_drop (ih h)
        · rw [if_neg h2] at h
          rcases List.mem_cons.mp h with rfl | h3
          · exact List.mem_cons_self _ _
          · exact List.mem_cons_of_mem _ (ih h3)

/-- Characters of the class replacement are underscores or untouched
original characters. -/
theorem mem_classReplace {l : Chars} {c : Char}
    (h : c ∈ classReplace l) : c = '_' ∨ c ∈ l := by
  unfold classReplace at h
  rcases List.mem_map.mp h with ⟨a, ha, rfl⟩
  by_cases hc : a ∈ classChars
  · rw [if_pos hc]; exact Or.inl rfl
  · rw [if_neg hc]; exact Or.inr ha

/-- Characters surviving the seven replacements either belong to a
replacement string or are original characters equal to none of the
seven replaced characters. -/
theorem mem_sanitizeSteps {l : Chars} {c : Char}
    (h : c ∈ sanitizeSteps l) :
    c ∈ (("_colon__slash__backslash__question__amp__equals__dot_").toList)
    ∨ (c ∈ l ∧ c ∉ ([':', '/', '\\', '?', '&', '=', '.'] : Chars)) := by
  unfold sanitizeSteps at h
  have hsub : ∀ rep : Chars,
      (∀ x ∈ rep, x ∈
        (("_colon__slash__backslash__question__amp__equals__dot_").toList)) →
      c ∈ rep →
      c ∈ (("_colon__slash__backslash__question__amp__equals__dot_").toList) :=
    fun rep hall hc => hall c hc
  rcases mem_replaceCharL h with h1 | ⟨h, hdot⟩
  · exact Or.inl (hsub _ (by decide) h1)
  rcases mem_replaceCharL h with h1 | ⟨h, heq⟩
  · exact Or.inl (hsub _ (by decide) h1)
  rcases mem_replaceCharL h with h1 | ⟨h, hamp⟩
  · exact Or.inl (hsub _ (by decide) h1)
  rcases mem_replaceCharL h with h1 | ⟨h, hq⟩
  · exact Or.inl (hsub _ (by decide) h1)
  rcases mem_replaceCharL h with h1 | ⟨h, hbs⟩
  · exact Or.inl (hsub _ (by decide) h1)
  rcases mem_replaceCharL h with h1 | ⟨h, hsl⟩
  · exact Or.inl (hsub _ (by decide) h1)
  rcases mem_replaceCharL h with h1 | ⟨h, hco⟩
  · exact Or.inl (hsub _ (by decide) h1)
  refine Or.inr ⟨h, ?_⟩
  intro hmem
  simp only [List.mem_cons, List.not_mem_nil, or_false] at hmem
  rcases hmem with rfl | rfl | rfl | rfl | rfl | rfl | rfl
  · exact hco rfl
  · exact hsl rfl
  · exact hbs rfl
  · exact hq rfl
  · exact hamp rfl
  · exact heq rfl
  · exact hdot rfl

set_option maxHeartbeats 1000000 in
/-- The sanitized key contains none of the seven replaced characters. -/
theorem sanitizeKey_no_forbidden (key : String) :
    ∀ c ∈ (sanitizeKey key).toList,
      c ∉ ([':', '/', '\\', '?', '&', '=', '.'] : Chars) := by
  intro c hc hforb
  have hc2 : c ∈ classReplace (stripHttpRuns (sanitizeSteps key.toList)) :=
    hc
  rcases mem_classReplace hc2 with rfl | hc3
  · exact absurd hforb (by decide)
  · have hc4 : c ∈ sanitizeSteps key.toList := by
      unfold stripHttpRuns at hc3
      exact mem_stripHttpRunsGo hc3
    rcases mem_sanitizeSteps hc4 with hu | ⟨_, hnf⟩
    · exact (show ∀ x ∈
          (("_colon__slash__backslash__question__amp__equals__dot_").toList),
          x ∉ ([':', '/', '\\', '?', '&', '=', '.'] : Chars) from by decide)
        c hu hforb
    · exact hnf hforb

/-- A dot-free name followed by the `.json` suffix contains no two
consecutive dots. -/
theorem hasDDot_append_json (l : Chars) (h : ∀ c ∈ l, c ≠ '.') :
    hasDDot (l ++ ((".json").toList)) = false := by
  induction l with
  | nil => decide
  | cons a t ih =>
    have ha : a ≠ '.' := h a (List.mem_cons_self a t)
    have ht : ∀ c ∈ t, c ≠ '.' := fun c hc => h c (List.mem_cons_of_mem a hc)
    rcases he : t ++ ((".json").toList) with _ | ⟨b, u⟩
    · exfalso
      rw [List.append_eq_nil] at he
      exact absurd he.2 (by decide)
    · show hasDDot (a :: t ++ ((".json").toList)) = false
      rw [List.cons_append, he]
      show ((decide (a = '.') && decide (b = '.')) || hasDDot (b :: u))
        = false
      rw [decide_eq_false ha, Bool.false_and, Bool.false_or, ← he]
      exact ih ht

/-- C9: key sanitization confinement.  The sanitized key contains none
of the characters replaced by `sanitizeKey`; the file name built by
`storage.set` contains no path separators and no `..` segment, so it
always names a file directly inside the storage directory; and equal
keys map to equal file names. -/
theorem c9_sanitize_confinement (key : String) :
    (∀ c ∈ (sanitizeKey key).toList,
      c ∉ ([':', '/', '\\', '?', '&', '=', '.'] : Chars))
    ∧ (∀ c ∈ (storageFileName key).toList, c ≠ '/' ∧ c ≠ '\\')
    ∧ hasDDot (storageFileName key).toList = false
    ∧ (∀ k2 : String, key = k2 → storageFileName key = storageFileName k2)
    := by
  have hsplit : (storageFileName key).toList
      = (sanitizeKey key).toList ++ ((".json").toList) :=
    String.data_append _ _
  refine ⟨sanitizeKey_no_forbidden key, ?_, ?_, fun k2 hk => by rw [hk]⟩
  · intro c hc
    rw [hsplit] at hc
    rcases List.mem_append.mp hc with h1 | h2
    · have hnf := sanitizeKey_no_forbidden key c h1
      exact ⟨fun h => hnf (by rw [h]; decide),
        fun h => hnf (by rw [h]; decide)⟩
    · exact (show ∀ x ∈ ((".json").toList), x ≠ '/' ∧ x ≠ '\\' from
        by decide) c h2
  · rw [hsplit]
    exact hasDDot_append_json _ (fun c hc h =>
      sanitizeKey_no_forbidden key c hc (by rw [h]; decide))

/-- Witness for C9: confinement at a concrete key. -/
theorem c9_sanitize_confinement_witness :
    'a' ∉ ([':', '/', '\\', '?', '&', '=', '.'] : Chars)
    ∧ hasDDot (storageFileName ("a:b")).toList = false :=
  ⟨(c9_sanitize_confinement ("a:b")).1 'a' (by decide),
    (c9_sanitize_confinement ("a:b")).2.2.1⟩

/-- A prefix test for a concatenation implies the prefix test for its
left part. -/
theorem isPre_append_left {p q l : Chars}
    (h : isPre (p ++ q) l = true) : isPre p l = true := by
  induction p generalizing l with
  | nil => rfl
  | cons a as ih =>
    cases l with
    | nil => exact absurd h (by simp [isPre])
    | cons b bs =>
      rw [List.cons_append, isPre, Bool.and_eq_true] at h
      rw [isPre, Bool.and_eq_true]
      exact ⟨h.1, ih h.2⟩

/-- An occurrence of a concatenation contains an occurrence of its left
part. -/
theorem containsPat_append {p q l : Chars}
    (h : containsPat (p ++ q) l = true) : containsPat p l = true := by
  induction l with
  | nil =>
    rw [containsPat] at h ⊢
    exact isPre_append_left h
  | cons c cs ih =>
    rw [containsPat, Bool.or_eq_true] at h ⊢
    rcases h with h1 | h2
    · exact Or.inl (isPre_append_left h1)
    · exact Or.inr (ih h2)

/-- When the pattern occurs nowhere, the split finds nothing. -/
theorem splitAtPat_eq_none {pat l : Chars}
    (h : containsPat pat l = false) : splitAtPat pat l = none := by
  induction l with
  | nil =>
    rw [containsPat] at h
    cases pat with
    | nil => exact absurd h (by simp [isPre])
    | cons a as => rfl
  | cons c cs ih =>
    rw [containsPat, Bool.or_eq_false_iff] at h
    rw [splitAtPat, if_neg (by rw [h.1]; exact Bool.false_ne_true)]
    rw [ih h.2]

/-- Without a fence in the text, the fence regex has no match. -/
theorem fenceCapture_eq_none {l : Chars}
    (h : containsPat fence3 l = false) : fenceCapture l = none := by
  unfold fenceCapture
  rw [splitAtPat_eq_none h]

/-- The parse cascade with an always-failing parser returns the
fallback. -/
theorem parseStage_none (m : WebsiteData) (comps : List WebsiteData)
    (jsonStr : Chars) :
    parseStage (fun _ => none) m comps jsonStr
      = generateFallbackSWOT m comps := by
  unfold parseStage
  cases h1 : firstIdxOf lbraceC jsonStr with
  | none => rfl
  | some i =>
    cases h2 : lastIdxOf rbraceC jsonStr with
    | none => rfl
    | some j =>
      show (if i < j then generateFallbackSWOT m comps
        else generateFallbackSWOT m comps) = generateFallbackSWOT m comps
      exact ite_self _

/-- C6 counterexample: a response that is one valid JSON SWOT object as
a whole but contains a code fence inside a string value.  The spec's
order (direct parse first) returns the parsed object; the code extracts
the fenced capture first, fails to parse it, and falls back — so the
two extraction procedures differ at this input, refuting the claimed
order. -/
theorem c6_extraction_order_counterexample :
    extractSWOT parseSWOTLite emptySite [] c6Text
      ≠ claimedExtract parseSWOTLite emptySite [] c6Text
    ∧ parseSWOTLite c6Text = some ⟨[("```a```").toList], [], [], []⟩
    ∧ claimedExtract parseSWOTLite emptySite [] c6Text
        = ⟨[("```a```").toList], [], [], []⟩
    ∧ extractSWOT parseSWOTLite emptySite [] c6Text
        = generateFallbackSWOT emptySite [] := by
  exact ⟨by decide, by decide, by decide, by decide⟩

/-- C6 amended: the extraction replaces the whole text by the trimmed
fenced capture before any parse whenever the text contains a fence with
a non-empty capture; only when the text contains no fence does the
behavior coincide with the spec's direct-parse-first order; and when
every parse attempt fails the deterministic rule-based fallback is
returned — no extraction error reaches the caller. -/
theorem c6_extraction_order_amended (parse : Chars → Option SWOT)
    (m : WebsiteData) (comps : List WebsiteData) (text : Chars)
    (hnf : containsPat fence3 text = false) :
    extractSWOT parse m comps text = claimedExtract parse m comps text
    ∧ ∀ t2 : Chars, extractSWOT (fun _ => none) m comps t2
        = generateFallbackSWOT m comps := by
  constructor
  · have hnfj : containsPat fenceJsonPat text = false := by
      cases hx : containsPat fenceJsonPat text with
      | false => rfl
      | true =>
        have h2 : containsPat fence3 text = true := containsPat_append hx
        rw [h2] at hnf
        exact absurd hnf (by simp)
    unfold extractSWOT claimedExtract
    rw [hnf, hnfj, fenceCapture_eq_none hnf]
    show parseStage parse m comps text = _
    unfold parseStage
    cases hp : parse text with
    | some s => rfl
    | none => rfl
  · intro t2
    exact parseStage_none m comps _

/-- Witness for the amended C6: on fence-free prose both procedures
agree (and return the fallback). -/
theorem c6_extraction_order_amended_witness :
    extractSWOT parseSWOTLite emptySite [] (("plain prose").toList)
      = claimedExtract parseSWOTLite emptySite [] (("plain prose").toList) :=
  (c6_extraction_order_amended parseSWOTLite emptySite []
    (("plain prose").toList) (by decide)).1

end WA
